import Mathlib

/-
  Verification of the Cram core (LLNL cram, src/c/libcram) against its
  natural-language specification.

  The C sources are shallowly embedded:
  * C strings are NUL-free byte sequences, modeled as `List Nat`
    (`strcmp` is lexicographic byte comparison).
  * `int` values read from the wire are 32-bit big-endian; where the C
    stores them in a signed `int` we convert with `toInt32`
    (two's complement).
  * Fallible reads and out-of-bounds accesses, which are undefined
    behavior in the C, are modeled by `Option`/dedicated result
    constructors.
-/

/-- A C string: a sequence of non-NUL bytes. -/
abbrev CStr := List Nat

/-- An environment: the parallel arrays `keys`/`values` of `cram_job_t`,
zipped into one association list (keys unique and sorted in well-formed
inputs). -/
abbrev Env := List (CStr × CStr)

/-- Byte-wise `strcmp` on NUL-free byte strings: the terminating NUL makes a
proper prefix sort first, exactly the lexicographic order on the byte lists. -/
def strcmpB : CStr → CStr → Ordering
  | [], [] => .eq
  | [], _ :: _ => .lt
  | _ :: _, [] => .gt
  | a :: as, b :: bs => if a < b then .lt else if b < a then .gt else strcmpB as bs

/-- The value of a 32-bit wire word when stored into a C `int`
(two's complement). -/
def toInt32 (n : Nat) : Int := if n < 2 ^ 31 then (n : Int) else (n : Int) - 2 ^ 32

/-- Conversion of a C `int` to `size_t` (e.g. the third argument of `fread`):
reduction modulo 2^64, so negative counts wrap to huge values. -/
def size_t_of_int (i : Int) : Nat := (i % (2 ^ 64 : Int)).toNat

/-- `index_of` (cram_util.c): `bsearch` over the sorted key array with
`strcmp`, returning the element's position.  `some i` models a hit at index
`i`; `none` models the NULL that `bsearch` returns on a miss.  (The embedding
takes the search to behave as the surrounding comments intend, i.e. as a
string search over the array; on a sorted array with unique keys the position
found is the unique index of the key.) -/
def index_of (sorted_array : List CStr) (s : CStr) : Option Nat :=
  sorted_array.findIdx? (fun k => k == s)

/-- The boolean context `if (index_of(...))` in `decompress`: a hit is truthy
iff its index is nonzero, and on a miss the C computes `NULL - sorted_array`,
a garbage value that is nonzero on any real platform, hence truthy. -/
def index_of_nonzero (sorted_array : List CStr) (s : CStr) : Bool :=
  match index_of sorted_array s with
  | some i => i != 0
  | none => true

/-- The `num_overlap` loop of `decompress` (cram_util.c lines 881-887):
counts the changed keys for which `index_of` is truthy. -/
def num_overlap (base_keys : List CStr) (changed : Env) : Nat :=
  (changed.filter fun kv => index_of_nonzero base_keys kv.1).length

/-- The merge loop of `decompress` (cram_util.c lines 896-929), with the
three cursors `bx`/`mx`/`cx` replaced by the remaining suffixes of the three
arrays and the loop bound `jx < job->num_env_vars` by the count `need` of
entries still to write.  Every iteration of the C loop reads
`base->keys[bx]` (either in the `strcmp` against `changed_keys[cx]`, or, when
`cx` is exhausted and `cmp` defaults to `-1`, in the missing-key test or the
`strdup` of the kept entry); an exhausted base therefore means an
out-of-bounds read, modeled as `none`.  `fuel` is a structural-recursion
bound; callers pass more than the possible number of iterations
(each iteration consumes a base or a changed entry). -/
def cram_merge : Nat → Nat → Env → List CStr → Env → Option Env
  | _, 0, _, _, _ => some []
  | 0, _ + 1, _, _, _ => none
  | fuel + 1, need + 1, base, missing, changed =>
    match base with
    | [] => none
    | (bk, bv) :: brest =>
      match changed with
      | (ck, cv) :: crest =>
        match strcmpB bk ck with
        | .eq => (cram_merge fuel need brest missing crest).map (fun t => (ck, cv) :: t)
        | .gt => (cram_merge fuel need ((bk, bv) :: brest) missing crest).map
            (fun t => (ck, cv) :: t)
        | .lt =>
          match missing with
          | mk :: mrest =>
            if bk = mk then cram_merge fuel (need + 1) brest mrest ((ck, cv) :: crest)
            else (cram_merge fuel need brest missing ((ck, cv) :: crest)).map
              (fun t => (bk, bv) :: t)
          | [] => (cram_merge fuel need brest [] ((ck, cv) :: crest)).map
              (fun t => (bk, bv) :: t)
      | [] =>
        match missing with
        | mk :: mrest =>
          if bk = mk then cram_merge fuel (need + 1) brest mrest []
          else (cram_merge fuel need brest missing []).map (fun t => (bk, bv) :: t)
        | [] => (cram_merge fuel need brest [] []).map (fun t => (bk, bv) :: t)

/-- The `decompress` helper of cram_util.c (lines 876-930): computes
`num_overlap`, sizes the output as
`base->num_env_vars + num_changed - num_overlap - num_missing` (a C `int`),
and runs the merge loop.  The loop bound comparison `jx < job->num_env_vars`
converts the `int` to `size_t`, so a negative count wraps to a huge bound and
the merge necessarily walks off the end of the base array: that case is
directly modeled as the out-of-bounds outcome `none`. -/
def decompress (base : Env) (missing : List CStr) (changed : Env) : Option Env :=
  let overlap := num_overlap (base.map Prod.fst) changed
  let n : Int := (base.length : Int) + (changed.length : Int) - overlap - (missing.length : Int)
  if n < 0 then none
  else cram_merge (base.length + changed.length + 1) n.toNat base missing changed

/-- C1: for the writer-contract input where job `i` adds the variable `B=2`
to the base environment `{A=1}` (subtracted empty, changed `{B=2}`),
`decompress` does not return the merged environment `{A=1, B=2}` required by
the claim; the miscounted overlap (`index_of` reports a miss as a truthy
index) shrinks `num_env_vars` to 1 and the merge truncates to `{A=1}`. -/
theorem decompress_drops_added_key :
    decompress [([65], [49])] [] [([66], [50])] = some [([65], [49])] ∧
    decompress [([65], [49])] [] [([66], [50])] ≠ some [([65], [49]), ([66], [50])] := by
  decide

/-- C4: on the sorted, unique, writer-contract input with base keys `[A]` and
changed pairs `[(A,x), (B,y)]` (job rewrites `A` and adds `B`), the merge
loop's second iteration evaluates `strcmp(base->keys[1], changed_keys[1])`
with `bx = 1 = base->num_env_vars`: an out-of-bounds read, `none` in the
model.  (The same overrun occurs even with a correctly computed
`num_env_vars = 2`: the loop guards `cx` but never `bx`.) -/
theorem decompress_merge_reads_past_base :
    decompress [([65], [49])] [] [([65], [50]), ([66], [51])] = none := by
  decide

/-- C3 counterexample: subtracting the key `A`, which does not occur in the
base `{B=1}`, changes the output (to `{}` instead of `{B=1}`): a spurious
subtraction is not ignored, contradicting the claim that it has no effect. -/
theorem decompress_spurious_subtraction_changes_output :
    decompress [([66], [49])] [[65]] [] ≠ decompress [([66], [49])] [] [] := by
  decide

/-- The merge loop with no changed entries and a single never-matching
subtracted key copies the first `need` base entries. -/
theorem cram_merge_no_changed (fuel : Nat) :
    ∀ (need : Nat) (base : Env) (k : CStr),
      k ∉ base.map Prod.fst → need ≤ base.length → need < fuel →
      cram_merge fuel need base [k] [] = some (base.take need) := by
  induction fuel with
  | zero => intro need base k _ _ hfuel; omega
  | succ f ih =>
    intro need base k hk hneed hfuel
    match need with
    | 0 => simp [cram_merge]
    | d + 1 =>
      match base with
      | [] => simp at hneed
      | (bk, bv) :: brest =>
        have hbk : ¬ bk = k := by
          intro h; exact hk (by simp [h])
        have hk' : k ∉ brest.map Prod.fst := by
          intro h; exact hk (by simp [h])
        simp only [cram_merge, List.take_succ_cons]
        rw [if_neg hbk]
        rw [ih d brest k hk' (by simpa using hneed) (by omega)]
        rfl

/-- C3 amended: a subtracted key absent from the base is never consumed by
the merge, yet it still lowers the computed `num_env_vars` by one, so (with
no changed variables) `decompress` returns the base environment with its last
entry dropped, rather than the unchanged base the claim asks for. -/
theorem decompress_spurious_subtraction_drops_last (base : Env) (k : CStr)
    (hk : k ∉ base.map Prod.fst) (hne : base ≠ []) :
    decompress base [k] [] = some base.dropLast := by
  have hlen : 1 ≤ base.length := by
    cases base with
    | nil => simp at hne
    | cons a l => simp
  have hover : num_overlap (base.map Prod.fst) [] = 0 := by
    simp [num_overlap]
  simp only [decompress, hover, List.length_nil, List.length_cons]
  split
  · next h => exfalso; omega
  · next h =>
    rw [cram_merge_no_changed (base.length + 0 + 1) _ base k hk (by omega) (by omega)]
    congr 1
    rw [List.dropLast_eq_take]
    congr 1
    omega

/-- Witness for the amended C3 theorem at the counterexample's input. -/
theorem decompress_spurious_subtraction_drops_last_witness :
    decompress [([66], [49])] [[65]] [] = some (List.dropLast [([66], [49])]) :=
  decompress_spurious_subtraction_drops_last [([66], [49])] [65] (by decide) (by decide)

/- ----------------------------------------------------------------------
   Partitioner: `cram_file_bcast_jobs` (cram_util.c lines 1026-1121).
   The collective assigns each rank its job id: ranks `[0, p0)` keep the
   broadcast first job (id 0); the root walks the remaining records in
   order, sending id `j` to the contiguous range of `num_procs(J_j)` ranks
   starting at the running sum `cur_rank`; ranks left over after the last
   job are sent id `-1`.  The function below is the id a given rank
   receives from that protocol. -/

/-- Root's send loop over records `1..num_jobs-1` and the trailing `-1`
sends (cram_util.c lines 1065-1099), seen from the receiving side: job `id`
covers ranks `[cur, cur + p)`; a rank past every job's range receives `-1`
from the inactive-rank loop. -/
def cram_assign_from (id : Int) (cur : Nat) (procs : List Nat) (r : Nat) : Int :=
  match procs with
  | [] => -1
  | p :: rest => if r < cur + p then id else cram_assign_from (id + 1) (cur + p) rest r

/-- The job id rank `r` obtains from `cram_file_bcast_jobs` for a container
whose records carry the per-job process counts `procs`: ranks below
`first_job.num_procs` set `id = 0` locally (`in_first_job`); all others
receive their id from the root's send loop. -/
def cram_file_bcast_jobs_id (procs : List Nat) (r : Nat) : Int :=
  match procs with
  | [] => -1
  | p0 :: rest => if r < p0 then 0 else cram_assign_from 1 p0 rest r

/-- Characterization of the send loop: starting at rank offset `cur` with
first id `id`, rank `r ≥ cur` receives `j` iff `j` is the id of the segment
whose cumulative range contains `r`, or `-1` when `r` lies past all
segments. -/
theorem cram_assign_from_eq (procs : List Nat) :
    ∀ (id : Int) (cur r : Nat), cur ≤ r → ∀ j : Int,
      (cram_assign_from id cur procs r = j ↔
        ((∃ t : Nat, j = id + t ∧ cur + (procs.take t).sum ≤ r ∧
            r < cur + (procs.take (t + 1)).sum)
          ∨ (j = -1 ∧ cur + procs.sum ≤ r))) := by
  induction procs with
  | nil =>
    intro id cur r hcur j
    simp only [cram_assign_from, List.take_nil, List.sum_nil]
    constructor
    · intro h
      right
      exact ⟨h.symm, by omega⟩
    · rintro (⟨t, _, h1, h2⟩ | ⟨hj, _⟩)
      · omega
      · exact hj.symm
  | cons p rest ih =>
    intro id cur r hcur j
    simp only [cram_assign_from]
    by_cases hlt : r < cur + p
    · rw [if_pos hlt]
      constructor
      · intro h
        left
        refine ⟨0, ?_, ?_, ?_⟩
        · simp [h.symm]
        · simpa using hcur
        · simpa [List.take_succ_cons] using hlt
      · rintro (⟨t, hj, h1, h2⟩ | ⟨hj, hsum⟩)
        · match t with
          | 0 => simpa using hj.symm
          | t' + 1 =>
            exfalso
            simp only [List.take_succ_cons, List.sum_cons] at h1
            omega
        · exfalso
          simp only [List.sum_cons] at hsum
          omega
    · rw [if_neg hlt]
      rw [ih (id + 1) (cur + p) r (by omega) j]
      constructor
      · rintro (⟨t, hj, h1, h2⟩ | ⟨hj, hsum⟩)
        · left
          refine ⟨t + 1, ?_, ?_, ?_⟩
          · rw [hj]; push_cast; ring
          · simpa [List.take_succ_cons, List.sum_cons, Nat.add_assoc] using h1
          · simpa [List.take_succ_cons, List.sum_cons, Nat.add_assoc] using h2
        · right
          exact ⟨hj, by simpa [List.sum_cons, Nat.add_assoc] using hsum⟩
      · rintro (⟨t, hj, h1, h2⟩ | ⟨hj, hsum⟩)
        · match t with
          | 0 =>
            exfalso
            simp only [List.take_succ_cons, List.take_zero, List.sum_cons,
              List.sum_nil] at h2
            omega
          | t' + 1 =>
            left
            refine ⟨t', ?_, ?_, ?_⟩
            · rw [hj]; push_cast; ring
            · simpa [List.take_succ_cons, List.sum_cons, Nat.add_assoc] using h1
            · simpa [List.take_succ_cons, List.sum_cons, Nat.add_assoc] using h2
        · right
          exact ⟨hj, by simpa [List.sum_cons, Nat.add_assoc] using hsum⟩

/-- C2: for a container with jobs of sizes `p0 :: rest` (each `num_procs ≥ 1`
per the data model) on an allocation of `N ≥ total_procs` ranks, the
partitioner gives rank `r < N` the job id `j` iff `r` lies in `j`-th
prefix-sum window, and gives every rank at or beyond `total_procs` the id
`-1`. -/
theorem cram_bcast_jobs_assignment (p0 : Nat) (rest : List Nat) (N r j : Nat)
    (hpos : ∀ p ∈ p0 :: rest, 1 ≤ p)
    (hN : (p0 :: rest).sum ≤ N) (hr : r < N) :
    (cram_file_bcast_jobs_id (p0 :: rest) r = (j : Int) ↔
      (((p0 :: rest).take j).sum ≤ r ∧ r < ((p0 :: rest).take (j + 1)).sum))
    ∧ ((p0 :: rest).sum ≤ r → cram_file_bcast_jobs_id (p0 :: rest) r = -1) := by
  have hp0 : 1 ≤ p0 := hpos p0 (by simp)
  simp only [cram_file_bcast_jobs_id]
  by_cases h0 : r < p0
  · rw [if_pos h0]
    constructor
    · match j with
      | 0 =>
        simp only [List.take_zero, List.sum_nil, List.take_succ_cons,
          List.take_zero, List.sum_cons, List.sum_nil]
        constructor
        · intro _; omega
        · intro _; rfl
      | j' + 1 =>
        simp only [List.take_succ_cons, List.sum_cons]
        constructor
        · intro h; exfalso; omega
        · intro h; exfalso; omega
    · intro hsum
      exfalso
      simp only [List.sum_cons] at hsum
      omega
  · rw [if_neg h0]
    have key := cram_assign_from_eq rest 1 p0 r (by omega)
    constructor
    · rw [key (j : Int)]
      constructor
      · rintro (⟨t, hj, h1, h2⟩ | ⟨hj, _⟩)
        · have hjt : j = t + 1 := by omega
          subst hjt
          simp only [List.take_succ_cons, List.sum_cons]
          omega
        · exfalso; omega
      · rintro ⟨h1, h2⟩
        match j with
        | 0 =>
          exfalso
          simp only [List.take_succ_cons, List.take_zero, List.sum_cons,
            List.sum_nil] at h2
          omega
        | j' + 1 =>
          left
          simp only [List.take_succ_cons, List.sum_cons] at h1 h2
          exact ⟨j', by push_cast; ring, by omega, by omega⟩
    · intro hsum
      rw [key (-1)]
      right
      simp only [List.sum_cons] at hsum
      exact ⟨rfl, by omega⟩

/-- Witness for C2 on the spec's two-job scenario (jobs of 2 and 3 procs,
allocation of 6): rank 3 is assigned job 1. -/
theorem cram_bcast_jobs_assignment_witness :
    cram_file_bcast_jobs_id [2, 3] 3 = (1 : Int) :=
  ((cram_bcast_jobs_assignment 2 [3] 6 3 1 (by decide) (by decide)
    (by decide)).1).mpr (by decide)

/- ----------------------------------------------------------------------
   Container reader: `cram_file_open` (cram_util.c lines 833-860) and
   `cram_file_next_job` (lines 1002-1023).  The open `FILE*` is modeled by
   the list of bytes remaining to read. -/

/-- Value of four bytes read in network (big-endian) order, as `ntohl`
produces it. -/
def beN (l : List Nat) : Nat := l.foldl (fun a b => 256 * a + b) 0

/-- `fread` of one 4-byte int from the stream (the common body of
`file_read_int` and the record-size read): `some` on success with the
remaining stream; `none` when fewer than 4 bytes remain, in which case
`file_read_int` prints an error and calls `exit(1)`. -/
def read_be32 : List Nat → Option (Nat × List Nat)
  | b0 :: b1 :: b2 :: b3 :: rest => some (beN [b0, b1, b2, b3], rest)
  | _ => none

/-- `cram_file_t` (cram_file.h): header fields plus the per-iteration
cursor state; `stream` is the unread tail of the file. -/
structure cram_file_t where
  version : Int
  num_jobs : Int
  total_procs : Int
  max_job_size : Int
  cur_job_record_size : Int
  cur_job_procs : Int
  cur_job_id : Int
  stream : List Nat
deriving DecidableEq

/-- The cram magic number `0x6372616d` ("cram"). -/
def MAGIC : Nat := 0x6372616d

/-- Outcome of `cram_file_open`: `fatal` models the `exit(1)` inside
`file_read_int` on a short read; `notCram` is the `return false` after the
magic check; `opened` carries the initialized descriptor. -/
inductive OpenResult where
  | fatal : OpenResult
  | notCram : OpenResult
  | opened : cram_file_t → OpenResult
deriving DecidableEq

/-- `cram_file_open` (cram_util.c lines 833-860), from the byte stream on:
check the magic, then read `version`, `num_jobs`, `total_procs` and
`max_job_size` in order and reset the job cursor.  (The `fopen` failure path
and the `setvbuf` buffer tuning do not affect the parse and are outside the
model.) -/
def cram_file_open (bytes : List Nat) : OpenResult :=
  match read_be32 bytes with
  | none => .fatal
  | some (magic, r1) =>
    if magic ≠ MAGIC then .notCram
    else
      match read_be32 r1 with
      | none => .fatal
      | some (version, r2) =>
        match read_be32 r2 with
        | none => .fatal
        | some (num_jobs, r3) =>
          match read_be32 r3 with
          | none => .fatal
          | some (total_procs, r4) =>
            match read_be32 r4 with
            | none => .fatal
            | some (max_job_size, r5) =>
              .opened { version := toInt32 version, num_jobs := toInt32 num_jobs,
                        total_procs := toInt32 total_procs,
                        max_job_size := toInt32 max_job_size,
                        cur_job_record_size := 0, cur_job_procs := 0,
                        cur_job_id := -1, stream := r5 }

theorem read_be32_eq (bs : List Nat) (h : 4 ≤ bs.length) :
    read_be32 bs = some (beN (bs.take 4), bs.drop 4) := by
  match bs with
  | [] => simp at h
  | [b0] => simp at h
  | [b0, b1] => simp at h
  | [b0, b1, b2] => simp at h
  | b0 :: b1 :: b2 :: b3 :: rest => rfl

/-- C6: provided the file holds a full 20-byte header (shorter files make
`file_read_int` exit instead of returning), `cram_file_open` reports a
non-cram file exactly when the first four bytes, big-endian, differ from
`0x6372616d`; on success exactly the 20 header bytes are consumed, the four
ints after the magic land in `version`, `num_jobs`, `total_procs` and
`max_job_size` in order, and the cursor state is reset with `cur_job_id =
-1`, leaving the stream at the first record's length prefix. -/
theorem cram_file_open_header (bytes : List Nat) (h : 20 ≤ bytes.length) :
    (beN (bytes.take 4) ≠ MAGIC → cram_file_open bytes = .notCram) ∧
    (beN (bytes.take 4) = MAGIC → cram_file_open bytes =
      .opened { version := toInt32 (beN ((bytes.drop 4).take 4)),
                num_jobs := toInt32 (beN ((bytes.drop 8).take 4)),
                total_procs := toInt32 (beN ((bytes.drop 12).take 4)),
                max_job_size := toInt32 (beN ((bytes.drop 16).take 4)),
                cur_job_record_size := 0, cur_job_procs := 0,
                cur_job_id := -1, stream := bytes.drop 20 }) := by
  have e0 := read_be32_eq bytes (by omega)
  have e1 := read_be32_eq (bytes.drop 4) (by simp [List.length_drop]; omega)
  have e2 := read_be32_eq (bytes.drop 8) (by simp [List.length_drop]; omega)
  have e3 := read_be32_eq (bytes.drop 12) (by simp [List.length_drop]; omega)
  have e4 := read_be32_eq (bytes.drop 16) (by simp [List.length_drop]; omega)
  rw [List.drop_drop] at e1 e2 e3 e4
  constructor
  · intro hm
    simp only [cram_file_open, e0]
    rw [if_pos hm]
  · intro hm
    simp only [cram_file_open, e0]
    rw [if_neg (by simp [hm])]
    simp only [e1, e2, e3, e4]

/-- Witness for C6 on a concrete 24-byte file: magic, version 1, 1 job,
4 procs, max record size 4. -/
theorem cram_file_open_header_witness :
    cram_file_open ([0x63, 0x72, 0x61, 0x6d, 0, 0, 0, 1, 0, 0, 0, 1,
        0, 0, 0, 4, 0, 0, 0, 4, 0, 0, 0, 4]) =
      .opened { version := 1, num_jobs := 1, total_procs := 4,
                max_job_size := 4, cur_job_record_size := 0,
                cur_job_procs := 0, cur_job_id := -1,
                stream := [0, 0, 0, 4] } := by
  have h := (cram_file_open_header ([0x63, 0x72, 0x61, 0x6d, 0, 0, 0, 1,
      0, 0, 0, 1, 0, 0, 0, 4, 0, 0, 0, 4, 0, 0, 0, 4]) (by decide)).2 (by decide)
  rw [h]
  decide

/-- Outcome of `cram_file_next_job`: `fatal` models the `exit(1)` inside
`file_read_int` when the record's length prefix cannot be read; `failed` is
a `return false` (oversized record, or `fread` delivered fewer bytes than
advertised); `ok` carries the updated descriptor and the bytes delivered
into the caller's `job_record` buffer. -/
inductive NextResult where
  | fatal : NextResult
  | failed : NextResult
  | ok : cram_file_t → List Nat → NextResult
deriving DecidableEq

/-- `cram_file_next_job` (cram_util.c lines 1002-1023): read the record's
length prefix, reject a record larger than the header's `max_job_size`,
`fread` exactly that many bytes (rejecting a short read), then record the
size, peek the record's leading `num_procs` word, and advance `cur_job_id`.
The `fread` count argument is the `int` size converted to `size_t`.  (When
the record is shorter than 4 bytes the `num_procs` peek reads stale buffer
bytes; theorems only use the peeked value for records of at least 4 bytes.) -/
def cram_file_next_job (f : cram_file_t) : NextResult :=
  match read_be32 f.stream with
  | none => .fatal
  | some (raw, rest) =>
    let job_record_size : Int := toInt32 raw
    if f.max_job_size < job_record_size then .failed
    else
      let count : Nat := size_t_of_int job_record_size
      if rest.length < count then .failed
      else
        let record := rest.take count
        .ok { f with cur_job_record_size := job_record_size,
                     cur_job_procs := toInt32 (beN (record.take 4)),
                     cur_job_id := f.cur_job_id + 1,
                     stream := rest.drop count } record

/-- C5: when the length prefix is readable and a normal (below `2^31`)
size is advertised, `cram_file_next_job` fails — returning `false`, not
delivering a record — exactly when the advertised length exceeds
`max_job_size` or fewer bytes remain than advertised; on success it
delivers exactly the advertised bytes, records their count in
`cur_job_record_size` and the record's leading big-endian `num_procs` word
in `cur_job_procs`, increments `cur_job_id`, and leaves the stream just
past this one record. -/
theorem cram_file_next_job_contract (f : cram_file_t) (raw : Nat)
    (rest : List Nat) (hread : read_be32 f.stream = some (raw, rest))
    (hraw : raw < 2 ^ 31) :
    (cram_file_next_job f ≠ .fatal) ∧
    (cram_file_next_job f = .failed ↔
      (f.max_job_size < (raw : Int) ∨ rest.length < raw)) ∧
    (∀ f' rec, cram_file_next_job f = .ok f' rec →
      rec = rest.take raw ∧ rec.length = raw ∧
      f'.stream = rest.drop raw ∧
      f'.cur_job_record_size = (raw : Int) ∧
      (4 ≤ raw → f'.cur_job_procs = toInt32 (beN (rest.take 4))) ∧
      f'.cur_job_id = f.cur_job_id + 1) := by
  have ht : toInt32 raw = (raw : Int) := by unfold toInt32; rw [if_pos hraw]
  have hsz : size_t_of_int ((raw : Nat) : Int) = raw := by
    simp only [size_t_of_int]
    omega
  simp only [cram_file_next_job, hread, ht, hsz]
  by_cases h1 : f.max_job_size < (raw : Int)
  · rw [if_pos h1]
    refine ⟨by simp, by simp [h1], ?_⟩
    intro f' rec h
    exact absurd h (by simp)
  · rw [if_neg h1]
    by_cases h2 : rest.length < raw
    · rw [if_pos h2]
      refine ⟨by simp, by simp [h2], ?_⟩
      intro f' rec h
      exact absurd h (by simp)
    · rw [if_neg h2]
      refine ⟨by simp, by simp [h1, h2], ?_⟩
      intro f' rec h
      rw [NextResult.ok.injEq] at h
      obtain ⟨hf, hrec⟩ := h
      subst hf hrec
      refine ⟨rfl, ?_, rfl, rfl, ?_, rfl⟩
      · simp only [List.length_take]
        omega
      · intro h4
        have : (rest.take raw).take 4 = rest.take 4 := by
          rw [List.take_take]
          congr 1
          omega
        simp [this]

/-- Witness for C5 on a concrete descriptor: an 9-byte stream advertising a
5-byte record under `max_job_size = 8`. -/
theorem cram_file_next_job_contract_witness :
    cram_file_next_job ⟨1, 1, 1, 8, 0, 0, -1, [0, 0, 0, 5, 0, 0, 0, 3, 9]⟩ ≠ .fatal ∧
    (cram_file_next_job ⟨1, 1, 1, 8, 0, 0, -1, [0, 0, 0, 5, 0, 0, 0, 3, 9]⟩ = .failed ↔
      ((8 : Int) < ((5 : Nat) : Int) ∨ ([0, 0, 0, 3, 9] : List Nat).length < 5)) :=
  ⟨(cram_file_next_job_contract ⟨1, 1, 1, 8, 0, 0, -1, [0, 0, 0, 5, 0, 0, 0, 3, 9]⟩
      5 [0, 0, 0, 3, 9] (by rfl) (by decide)).1,
   (cram_file_next_job_contract ⟨1, 1, 1, 8, 0, 0, -1, [0, 0, 0, 5, 0, 0, 0, 3, 9]⟩
      5 [0, 0, 0, 3, 9] (by rfl) (by decide)).2.1⟩

/- ----------------------------------------------------------------------
   Record decoding: `cram_job_decompress` (cram_util.c lines 933-999). -/

/-- `buf_read_string` (cram_util.c lines 795-800): read a length word, then
`strndup` that many bytes (which also stops at a NUL byte) and advance the
offset by the full length.  A length running past the record's bytes would
read unspecified memory, modeled as `none`. -/
def buf_read_string (buf : List Nat) : Option (CStr × List Nat) :=
  match read_be32 buf with
  | none => none
  | some (size, r) =>
    if size ≤ r.length then
      some ((r.take size).takeWhile (fun b => b != 0), r.drop size)
    else none

/-- The `for` loops of `cram_job_decompress` that read `n` consecutive
strings (args, subtracted variables) from the record. -/
def read_strings : Nat → List Nat → Option (List CStr × List Nat)
  | 0, buf => some ([], buf)
  | n + 1, buf =>
    match buf_read_string buf with
    | none => none
    | some (s, r) =>
      match read_strings n r with
      | none => none
      | some (ss, r2) => some (s :: ss, r2)

/-- The loop of `cram_job_decompress` that reads `n` changed variables, each
a key string followed by a value string. -/
def read_pairs : Nat → List Nat → Option (Env × List Nat)
  | 0, buf => some ([], buf)
  | n + 1, buf =>
    match buf_read_string buf with
    | none => none
    | some (k, r) =>
      match buf_read_string r with
      | none => none
      | some (v, r2) =>
        match read_pairs n r2 with
        | none => none
        | some (ps, r3) => some ((k, v) :: ps, r3)

/-- `cram_job_t` (cram_file.h): the decoded job descriptor.  `num_args` and
`num_env_vars` are the lengths of `args` and `env`. -/
structure cram_job_t where
  num_procs : Int
  working_dir : CStr
  args : List CStr
  env : Env
deriving DecidableEq

/-- Outcome of `cram_job_decompress`: `abortNoBase` is the
`PMPI_Abort(MPI_COMM_WORLD, 1)` taken when a record carries subtracted
variables but no base job was supplied; `oob` models any read of
unspecified memory (a field running past the record, or the merge loop
overrunning an array). -/
inductive JobResult where
  | oob : JobResult
  | abortNoBase : JobResult
  | ok : cram_job_t → JobResult
deriving DecidableEq

/-- `cram_job_decompress` (cram_util.c lines 933-999): parse `num_procs`,
the working directory, the argument strings, then the subtracted list —
aborting first if it is non-empty and no base job was supplied — then the
changed pairs; finally apply `decompress` against the base, or, with no
base, take the changed pairs as the whole environment. -/
def cram_job_decompress (job_record : List Nat) (base : Option Env) : JobResult :=
  match read_be32 job_record with
  | none => .oob
  | some (num_procs, r1) =>
    match buf_read_string r1 with
    | none => .oob
    | some (working_dir, r2) =>
      match read_be32 r2 with
      | none => .oob
      | some (num_args, r3) =>
        match read_strings num_args r3 with
        | none => .oob
        | some (args, r4) =>
          match read_be32 r4 with
          | none => .oob
          | some (num_subtracted, r5) =>
            if num_subtracted ≠ 0 ∧ base = none then .abortNoBase
            else
              match read_strings num_subtracted r5 with
              | none => .oob
              | some (subtracted, r6) =>
                match read_be32 r6 with
                | none => .oob
                | some (num_changed, r7) =>
                  match read_pairs num_changed r7 with
                  | none => .oob
                  | some (changed, _) =>
                    match base with
                    | some b =>
                      match decompress b subtracted changed with
                      | some env => .ok ⟨toInt32 num_procs, working_dir, args, env⟩
                      | none => .oob
                    | none => .ok ⟨toInt32 num_procs, working_dir, args, changed⟩

/-- C7: a record whose `num_subtracted` field is nonzero, decoded with no
base job, makes `cram_job_decompress` abort (reporting the missing base)
instead of producing a descriptor; with a base supplied that abort is
unreachable. -/
theorem cram_job_decompress_requires_base (job_record : List Nat)
    (np : Nat) (r1 : List Nat) (wd : CStr) (r2 : List Nat) (na : Nat)
    (r3 : List Nat) (args : List CStr) (r4 : List Nat) (nsub : Nat)
    (r5 : List Nat)
    (h1 : read_be32 job_record = some (np, r1))
    (h2 : buf_read_string r1 = some (wd, r2))
    (h3 : read_be32 r2 = some (na, r3))
    (h4 : read_strings na r3 = some (args, r4))
    (h5 : read_be32 r4 = some (nsub, r5))
    (h6 : nsub ≠ 0) :
    cram_job_decompress job_record none = .abortNoBase ∧
    ∀ b, cram_job_decompress job_record (some b) ≠ .abortNoBase := by
  constructor
  · simp only [cram_job_decompress, h1, h2, h3, h4, h5]
    rw [if_pos (by simp [h6])]
  · intro b
    simp only [cram_job_decompress, h1, h2, h3, h4, h5]
    rw [if_neg (by simp)]
    repeat' split
    all_goals simp

/-- Witness for C7: a concrete record with one argument and one subtracted
variable aborts with no base and never aborts with a base. -/
theorem cram_job_decompress_requires_base_witness :
    cram_job_decompress
        [0, 0, 0, 1, 0, 0, 0, 0, 0, 0, 0, 1, 0, 0, 0, 1, 97, 0, 0, 0, 1]
        none = .abortNoBase ∧
    cram_job_decompress
        [0, 0, 0, 1, 0, 0, 0, 0, 0, 0, 0, 1, 0, 0, 0, 1, 97, 0, 0, 0, 1]
        (some []) ≠ .abortNoBase :=
  ⟨(cram_job_decompress_requires_base
      [0, 0, 0, 1, 0, 0, 0, 0, 0, 0, 0, 1, 0, 0, 0, 1, 97, 0, 0, 0, 1]
      1 [0, 0, 0, 0, 0, 0, 0, 1, 0, 0, 0, 1, 97, 0, 0, 0, 1]
      [] [0, 0, 0, 1, 0, 0, 0, 1, 97, 0, 0, 0, 1]
      1 [0, 0, 0, 1, 97, 0, 0, 0, 1]
      [[97]] [0, 0, 0, 1] 1 []
      (by rfl) (by rfl) (by rfl) (by rfl) (by rfl) (by decide)).1,
   (cram_job_decompress_requires_base
      [0, 0, 0, 1, 0, 0, 0, 0, 0, 0, 0, 1, 0, 0, 0, 1, 97, 0, 0, 0, 1]
      1 [0, 0, 0, 0, 0, 0, 0, 1, 0, 0, 0, 1, 97, 0, 0, 0, 1]
      [] [0, 0, 0, 1, 0, 0, 0, 1, 97, 0, 0, 0, 1]
      1 [0, 0, 0, 1, 97, 0, 0, 0, 1]
      [[97]] [0, 0, 0, 1] 1 []
      (by rfl) (by rfl) (by rfl) (by rfl) (by rfl) (by decide)).2 []⟩

/- ----------------------------------------------------------------------
   Runtime shim (cram.w): the generated MPI_Init wrapper and the
   communicator substitution applied by every other generated wrapper. -/

/-- An MPI communicator as the shim distinguishes them: the global world,
or a communicator produced by `PMPI_Comm_split` keyed by job id. -/
inductive MPIComm where
  | commWorld : MPIComm
  | split : Int → Nat → MPIComm
deriving DecidableEq

/-- The `swap_world` macro (cram.w lines 22-27): every wrapper generated by
the `fnall` template replaces an `MPI_Comm` argument equal to
`MPI_COMM_WORLD` by `local_world` before delegating. -/
def swap_world (local_world comm : MPIComm) : MPIComm :=
  if comm = .commWorld then local_world else comm

/-- Where the MPI_Init wrapper goes after its `CRAM_FILE` check (cram.w
lines 192-202): `disabled` is the early return (whether the rank-0 warning
was printed, the value assigned to `local_world`, the return value);
`partition` means the wrapper continues into `cram_file_open` and the
partitioner with the configured path. -/
inductive InitOutcome where
  | disabled : Bool → MPIComm → Int → InitOutcome
  | partition : String → InitOutcome
deriving DecidableEq

/-- `MPI_SUCCESS` is zero. -/
def MPI_SUCCESS : Int := 0

/-- The `CRAM_FILE` check of the MPI_Init wrapper (cram.w lines 192-202):
with the variable unset, warn on rank 0, alias `local_world` to
`MPI_COMM_WORLD` and return `MPI_SUCCESS`; otherwise proceed to the
partitioner with the configured path. -/
def MPI_Init_wrapper (cram_file_env : Option String) (rank : Nat) : InitOutcome :=
  match cram_file_env with
  | none => .disabled (rank == 0) .commWorld MPI_SUCCESS
  | some path => .partition path

/-- C8: with `CRAM_FILE` unset the initializer never reaches the
partitioner: it takes the early return that warns exactly on rank 0, sets
`local_world` to the global world and returns `MPI_SUCCESS`; consequently
the substitution every other intercepted entry point applies
(`swap_world`) is the identity, so the application sees the allocation
unchanged. -/
theorem MPI_Init_wrapper_disabled (rank : Nat) :
    (∀ path, MPI_Init_wrapper none rank ≠ .partition path) ∧
    MPI_Init_wrapper none rank = .disabled (rank == 0) MPIComm.commWorld MPI_SUCCESS ∧
    (∀ comm, swap_world MPIComm.commWorld comm = comm) := by
  refine ⟨?_, rfl, ?_⟩
  · intro path h
    exact absurd h (by simp [MPI_Init_wrapper])
  · intro comm
    by_cases h : comm = MPIComm.commWorld
    · simp [swap_world, h]
    · simp [swap_world, h]

/- ----------------------------------------------------------------------
   Crash isolation (cram.w lines 123-154): the SIGSEGV handler and the
   on_exit hook.  Both act only on the local process: they print one line
   naming the local rank and job id to the preserved original stderr,
   finalize MPI if it is not yet finalized, and exit 0. -/

/-- The observable effect of a crash handler on its own process: the line
printed to `original_stderr` (local rank, job id, error or signal), whether
`PMPI_Finalize` was called, and the exit code passed to `exit` (none if the
handler falls through). -/
structure handler_result where
  printed_rank_job : Option (Int × Int × Int)
  finalize_called : Bool
  exit_code : Option Int
deriving DecidableEq

/-- `on_exit_handler` (cram.w lines 141-154): on a nonzero exit status,
print the rank/job line to the preserved original stderr, finalize MPI if
not yet finalized, and exit 0; on a zero status do nothing. -/
def on_exit_handler (err : Int) (local_rank job_id : Int)
    (finalized : Bool) : handler_result :=
  if err ≠ 0 then
    { printed_rank_job := some (local_rank, job_id, err),
      finalize_called := !finalized, exit_code := some 0 }
  else
    { printed_rank_job := none, finalize_called := false, exit_code := none }

/-- `segv_sigaction` (cram.w lines 123-134): on a segmentation fault,
print the rank/job line to the preserved original stderr, finalize MPI if
not yet finalized, and exit 0. -/
def segv_sigaction (signal : Int) (local_rank job_id : Int)
    (finalized : Bool) : handler_result :=
  { printed_rank_job := some (local_rank, job_id, signal),
    finalize_called := !finalized, exit_code := some 0 }

/-- C9: a nonzero application exit status, and likewise a segmentation
fault, makes the handler exit the process with code 0 after printing a
single line with the local rank and job id to the preserved original error
stream, finalizing the runtime exactly when it was not yet finalized.  Both
handlers read and write only this process's state, so no other rank is
affected. -/
theorem crash_handlers_mask_exit (err signal local_rank job_id : Int)
    (finalized : Bool) (herr : err ≠ 0) :
    (on_exit_handler err local_rank job_id finalized).exit_code = some 0 ∧
    (on_exit_handler err local_rank job_id finalized).printed_rank_job =
      some (local_rank, job_id, err) ∧
    (on_exit_handler err local_rank job_id finalized).finalize_called = !finalized ∧
    (segv_sigaction signal local_rank job_id finalized).exit_code = some 0 ∧
    (segv_sigaction signal local_rank job_id finalized).printed_rank_job =
      some (local_rank, job_id, signal) ∧
    (segv_sigaction signal local_rank job_id finalized).finalize_called = !finalized := by
  simp [on_exit_handler, segv_sigaction, herr]

/-- Witness for C9: exit status 1 and signal 11 on job 1, local rank 0. -/
theorem crash_handlers_mask_exit_witness :
    (on_exit_handler 1 0 1 false).exit_code = some 0 ∧
    (segv_sigaction 11 0 1 false).exit_code = some 0 :=
  ⟨(crash_handlers_mask_exit 1 11 0 1 false (by decide)).1,
   (crash_handlers_mask_exit 1 11 0 1 false (by decide)).2.2.2.1⟩

/- ----------------------------------------------------------------------
   Per-process setup: `cram_job_setup` (cram_util.c lines 1135-1163),
   argument-vector part.  The `chdir`, the Fortran argument mirror and the
   `setenv` loop have no bearing on C10. -/

/-- The sentinel `CRAM_DEFAULT_EXE = "<exe>"`. -/
def CRAM_DEFAULT_EXE : CStr := [60, 101, 120, 101, 62]

/-- `arg_copy` (cram_util.c lines 1124-1132): deep copy of the job's
argument strings, with the count set to `job->num_args`. -/
def arg_copy (job_args : List CStr) : Nat × List CStr := (job_args.length, job_args)

/-- The argument-vector part of `cram_job_setup` (cram_util.c lines
1135-1154): capture the prior `(*argv)[0]` when `*argc > 0 && *argv`,
replace the argument vector by a copy of the job's args, then, when
`job->args[0]` is the sentinel and an exe name was captured, put the
captured name into slot 0.  `job->args[0]` of an empty argument array is an
out-of-bounds read, `none`. -/
def cram_job_setup_argv (job_args : List CStr) (argc : Int)
    (argv : Option (List CStr)) : Option (Nat × List CStr) :=
  let exe_name : Option CStr :=
    match argv with
    | some prior => if 0 < argc then prior.head? else none
    | none => none
  let copied := arg_copy job_args
  match job_args with
  | [] => none
  | a0 :: restArgs =>
    if a0 = CRAM_DEFAULT_EXE then
      match exe_name with
      | some e => some (copied.1, e :: restArgs)
      | none => some copied
    else some copied

/-- C10: for a job with at least one argument, `cram_job_setup` installs
`argc = num_args` and a copy of the job's args, except that when `args[0]`
is the sentinel `"<exe>"` and a prior `argv[0]` was available, slot 0 holds
that prior `argv[0]`; with no prior vector the job's args are installed
verbatim. -/
theorem cram_job_setup_argv_contract (job_args : List CStr) (a0 : CStr)
    (restArgs : List CStr) (h : job_args = a0 :: restArgs) :
    (∀ (argc : Int) (p0 : CStr) (ptail : List CStr), 0 < argc →
      cram_job_setup_argv job_args argc (some (p0 :: ptail)) =
        some (job_args.length,
          if a0 = CRAM_DEFAULT_EXE then p0 :: restArgs else job_args)) ∧
    (∀ argc : Int, cram_job_setup_argv job_args argc none =
      some (job_args.length, job_args)) := by
  subst h
  constructor
  · intro argc p0 ptail hargc
    by_cases hs : a0 = CRAM_DEFAULT_EXE
    · simp [cram_job_setup_argv, arg_copy, hargc, hs]
    · simp [cram_job_setup_argv, arg_copy, hargc, hs]
  · intro argc
    by_cases hs : a0 = CRAM_DEFAULT_EXE
    · simp [cram_job_setup_argv, arg_copy, hs]
    · simp [cram_job_setup_argv, arg_copy, hs]

/-- Witness for C10: a job whose first argument is the sentinel, run with a
prior argv `["a"]`, gets `argc = 2` and argv `["a", "x"]`. -/
theorem cram_job_setup_argv_contract_witness :
    cram_job_setup_argv [[60, 101, 120, 101, 62], [120]] 1 (some [[97]]) =
      some (2, [[97], [120]]) := by
  have h := (cram_job_setup_argv_contract [[60, 101, 120, 101, 62], [120]]
      [60, 101, 120, 101, 62] [[120]] rfl).1 1 [97] [] (by decide)
  rw [h]
  decide
